import Mathlib

/-!
A shallow embedding of the storage engine of the time-tracker repository
(`src/database.py`).  The SQLite database is modelled as an explicit state
value (`DB`); each `async` engine function becomes a pure Lean function from
the old state (plus the wall-clock reading the Python code takes with
`datetime.now()`) to its result and the new state.

Timestamps are modelled as `Int` wall-clock seconds.  The Python code stores
`datetime.now().isoformat()` strings and compares them with `>=`;
for fixed-format ISO strings that comparison agrees with chronological
order, and `datetime.fromisoformat` round-trips, so an integer timeline is
faithful at whole-second granularity.  `int((now - started).total_seconds())`
on whole-second timestamps is exactly the integer difference `now - started`
(Python `int()` truncation only matters for fractional seconds).

String normalisation: `str.lower()` is modelled by `pyLower`, a
character-wise lowercase map (it agrees with CPython on ASCII).
-/

/-- A row of the `categories` table: `(id, user_id, name)` with SQL
uniqueness on `(user_id, name)` and autoincremented `id`. -/
structure Category where
  id : Nat
  user_id : Nat
  name : String
deriving DecidableEq, Repr

/-- A row of the `time_entries` table.  `stopped_at` and `duration_seconds`
are the two nullable columns. -/
structure TimeEntry where
  id : Nat
  user_id : Nat
  category_id : Nat
  task_name : String
  started_at : Int
  stopped_at : Option Int
  duration_seconds : Option Int
deriving DecidableEq, Repr

/-- The whole database: the two tables plus the autoincrement counters
(SQLite assigns `1` to the first row of each table). -/
structure DB where
  categories : List Category
  entries : List TimeEntry
  nextCatId : Nat
  nextEntryId : Nat
deriving DecidableEq, Repr

/-- The freshly initialised database (`init_db` creates empty tables). -/
def dbEmpty : DB := ⟨[], [], 1, 1⟩

/-- `DEFAULT_CATEGORIES = ["work", "study", "sport", "other"]`. -/
def DEFAULT_CATEGORIES : List String := ["work", "study", "sport", "other"]

/-- One `INSERT OR IGNORE INTO categories (user_id, name)` statement: the
insert is ignored exactly when the `UNIQUE(user_id, name)` constraint would
be violated, i.e. when the user already has a category of that name. -/
def insertOrIgnoreCategory (u : Nat) (name : String) (db : DB) : DB :=
  if db.categories.any (fun c => c.user_id == u && c.name == name) then db
  else
    { db with
      categories := db.categories ++ [⟨db.nextCatId, u, name⟩]
      nextCatId := db.nextCatId + 1 }

/-- `ensure_default_categories(user_id)`: `INSERT OR IGNORE` of each default
name in order. -/
def ensure_default_categories (u : Nat) (db : DB) : DB :=
  DEFAULT_CATEGORIES.foldl (fun d n => insertOrIgnoreCategory u n d) db

/-- `c.id ≤ d.id`: the `ORDER BY id` (ascending) comparison. -/
def catIdLe (c d : Category) : Prop := c.id ≤ d.id

instance : DecidableRel catIdLe := fun c d => Nat.decLe c.id d.id

/-- `get_categories(user_id)`:
`SELECT id, name FROM categories WHERE user_id = ? ORDER BY id`. -/
def get_categories (u : Nat) (db : DB) : List (Nat × String) :=
  (List.insertionSort catIdLe (db.categories.filter (fun c => c.user_id == u))).map
    (fun c => (c.id, c.name))

/-- Python `str.lower()`: lowercase every character of the string (modelled
character-wise; agrees with CPython on ASCII input). -/
def pyLower (s : String) : String := ⟨s.data.map Char.toLower⟩

/-- `add_category(user_id, name)`: a plain `INSERT` of `(user_id,
name.lower())`; `aiosqlite.IntegrityError` (the `UNIQUE(user_id, name)`
violation) is caught and turned into `False` with no mutation.  Note the
code lowercases but does NOT trim, and never checks for emptiness. -/
def add_category (u : Nat) (name : String) (db : DB) : Bool × DB :=
  let n := pyLower name
  if db.categories.any (fun c => c.user_id == u && c.name == n) then (false, db)
  else
    (true,
      { db with
        categories := db.categories ++ [⟨db.nextCatId, u, n⟩]
        nextCatId := db.nextCatId + 1 })

/-- `start_entry(user_id, category_id, task_name)`: one `INSERT` with
`started_at = datetime.now().isoformat()` and the nullable columns left
NULL.  The code performs no validation of `task_name` or `category_id`. -/
def start_entry (u cat : Nat) (task : String) (now : Int) (db : DB) : DB :=
  { db with
    entries := db.entries ++ [⟨db.nextEntryId, u, cat, task, now, none, none⟩]
    nextEntryId := db.nextEntryId + 1 }

/-- The row set of
`FROM time_entries te JOIN categories c ON te.category_id = c.id
WHERE te.user_id = ? AND te.stopped_at IS NULL`:
each entry of the user with NULL `stopped_at` paired with the category row
its `category_id` resolves to (an entry whose `category_id` matches no
category is dropped by the inner JOIN). -/
def activeRows (u : Nat) (db : DB) : List (TimeEntry × Category) :=
  db.entries.filterMap (fun e =>
    if e.user_id == u && e.stopped_at.isNone then
      (db.categories.find? (fun c => c.id == e.category_id)).map (fun c => (e, c))
    else none)

/-- The `ORDER BY te.id DESC` comparison on joined rows. -/
def entryDescLe (a b : TimeEntry × Category) : Prop := b.1.id ≤ a.1.id

instance : DecidableRel entryDescLe := fun a b => Nat.decLe b.1.id a.1.id

/-- `get_active_entry(user_id)`: the joined active row with
`ORDER BY te.id DESC LIMIT 1`, or the `None` sentinel. -/
def get_active_entry (u : Nat) (db : DB) : Option (TimeEntry × Category) :=
  (List.insertionSort entryDescLe (activeRows u db)).head?

/-- The dict `stop_active_entry` returns: the keys of the
`get_active_entry` row plus the `duration_seconds` it adds. -/
structure StoppedEntry where
  id : Nat
  task_name : String
  started_at : Int
  category : String
  duration_seconds : Int
deriving DecidableEq, Repr

/-- `stop_active_entry(user_id)`: find the active entry; if none, return the
`None` sentinel with no mutation.  Otherwise one `UPDATE ... SET stopped_at
= ?, duration_seconds = ? WHERE id = ?` writes both columns at once, with
`duration = int((now - started).total_seconds())` — on whole-second
timestamps exactly `now - started`, with NO clamping to `0`. -/
def stop_active_entry (u : Nat) (now : Int) (db : DB) : Option StoppedEntry × DB :=
  match get_active_entry u db with
  | none => (none, db)
  | some (e, c) =>
    let duration : Int := now - e.started_at
    (some ⟨e.id, e.task_name, e.started_at, c.name, duration⟩,
      { db with
        entries := db.entries.map (fun t =>
          if t.id == e.id then
            { t with stopped_at := some now, duration_seconds := some duration }
          else t) })

/-- SQL `SUM` over an `INTEGER` column: NULL inputs are ignored, and the
result is NULL when no non-NULL input exists. -/
def sqlSumInt (xs : List (Option Int)) : Option Int :=
  if (xs.filterMap id).isEmpty then none else some (xs.filterMap id).sum

/-- The row set of the `get_stats` query before grouping:
`te JOIN c ON te.category_id = c.id WHERE te.user_id = ? AND te.stopped_at
IS NOT NULL AND te.started_at >= since`, keeping for each row the category
name and the (nullable) duration. -/
def statsMatched (u : Nat) (since : Int) (db : DB) : List (String × Option Int) :=
  db.entries.filterMap (fun e =>
    if e.user_id == u && e.stopped_at.isSome && decide (since ≤ e.started_at) then
      (db.categories.find? (fun c => c.id == e.category_id)).map
        (fun c => (c.name, e.duration_seconds))
    else none)

/-- Comparison of nullable totals, with SQL NULL below every integer. -/
def optIntLeB : Option Int → Option Int → Bool
  | none, _ => true
  | some _, none => false
  | some a, some b => a ≤ b

/-- The `ORDER BY total DESC` comparison on `(category, total)` rows. -/
def statDescLe (a b : String × Option Int) : Prop := optIntLeB b.2 a.2 = true

instance : DecidableRel statDescLe := fun a b =>
  instDecidableEqBool (optIntLeB b.2 a.2) true

/-- `get_stats(user_id, days=7)` with `since = now - days·86400`
(`timedelta(days=days)`): `GROUP BY c.name` over the matched rows (one
output row per distinct name, whose total is the SQL `SUM` of the
durations grouped under that name), then `ORDER BY total DESC`. -/
def get_stats (u : Nat) (now : Int) (days : Int) (db : DB) :
    List (String × Option Int) :=
  List.insertionSort statDescLe
    ((((statsMatched u (now - days * 86400) db).map Prod.fst).dedup).map (fun n =>
      (n, sqlSumInt (((statsMatched u (now - days * 86400) db).filter
        (fun r => r.1 == n)).map Prod.snd))))

/-- The row set of the `get_history` query:
`te JOIN c ON te.category_id = c.id WHERE te.user_id = ? AND te.stopped_at
IS NOT NULL`. -/
def completedRows (u : Nat) (db : DB) : List (TimeEntry × Category) :=
  db.entries.filterMap (fun e =>
    if e.user_id == u && e.stopped_at.isSome then
      (db.categories.find? (fun c => c.id == e.category_id)).map (fun c => (e, c))
    else none)

/-- `get_history(user_id, limit=10)`: the completed joined rows,
`ORDER BY te.id DESC LIMIT ?`, projected to
`(task_name, category, started_at, duration_seconds)`. -/
def get_history (u : Nat) (limit : Nat) (db : DB) :
    List (String × String × Int × Option Int) :=
  ((List.insertionSort entryDescLe (completedRows u db)).take limit).map
    (fun r => (r.1.task_name, r.2.name, r.1.started_at, r.1.duration_seconds))

/-- One engine mutation performed on behalf of user `u`, at arbitrary
arguments and clock reading. -/
inductive Step : Nat → DB → DB → Prop
  | ensure (u : Nat) (db : DB) : Step u db (ensure_default_categories u db)
  | add (u : Nat) (name : String) (db : DB) : Step u db (add_category u name db).2
  | start (u cat : Nat) (task : String) (now : Int) (db : DB) :
      Step u db (start_entry u cat task now db)
  | stop (u : Nat) (now : Int) (db : DB) : Step u db (stop_active_entry u now db).2

/-- The states reachable from the freshly initialised database by engine
operations. -/
inductive Reachable : DB → Prop
  | init : Reachable dbEmpty
  | step {u : Nat} {db db' : DB} : Reachable db → Step u db db' → Reachable db'

/-- `duration_seconds` is NULL exactly when `stopped_at` is NULL. -/
def EntryConsistent (db : DB) : Prop :=
  ∀ e ∈ db.entries, e.stopped_at = none ↔ e.duration_seconds = none

/-- User `u` has no active entry (no row with NULL `stopped_at`). -/
def NoActiveFor (u : Nat) (db : DB) : Prop :=
  ∀ e ∈ db.entries, e.user_id = u → e.stopped_at ≠ none

/-- Every entry of user `u` references an existing category row. -/
def NoDanglingFor (u : Nat) (db : DB) : Prop :=
  ∀ e ∈ db.entries, e.user_id = u → ∃ c ∈ db.categories, c.id = e.category_id

/-- Completed entries carry a duration (one direction of
`EntryConsistent`). -/
def StoppedHasDuration (db : DB) : Prop :=
  ∀ e ∈ db.entries, e.stopped_at ≠ none → e.duration_seconds ≠ none

/-- The database with every entry whose `category_id` matches no category
row removed. -/
def eraseOrphans (db : DB) : DB :=
  { db with
    entries := db.entries.filter (fun e =>
      db.categories.any (fun c => c.id == e.category_id)) }

/-- Example state: user 1 owns category 1 and has one active entry started
at wall-clock second 10. -/
def dbBackClock : DB := ⟨[⟨1, 1, "work"⟩], [⟨1, 1, 1, "report", 10, none, none⟩], 2, 2⟩

/-- Example state: user 1 owns category 1 and has a single, already
stopped, entry. -/
def dbStoppedOnly : DB := ⟨[⟨1, 1, "work"⟩], [⟨1, 1, 1, "t", 0, some 5, some 5⟩], 2, 2⟩

/-- Example state for aggregation: user 1 owns two categories, has three
completed entries inside the 7-day window of clock reading 100, one
completed entry far outside it and one still-active entry. -/
def dbStats : DB :=
  ⟨[⟨1, 1, "work"⟩, ⟨2, 1, "study"⟩],
    [⟨1, 1, 1, "a", 0, some 5, some 5⟩,
     ⟨2, 1, 2, "b", 10, some 30, some 20⟩,
     ⟨3, 1, 1, "c", 20, some 27, some 7⟩,
     ⟨4, 1, 2, "d", -999999, some 0, some 99⟩,
     ⟨5, 1, 1, "e", 50, none, none⟩], 3, 6⟩

/-- Example state: user 1 has an active entry whose `category_id` 5 matches
no category row at all. -/
def dbOrphan : DB := ⟨[], [⟨1, 1, 5, "t", 0, none, none⟩], 1, 2⟩

/-- A reachable state: defaults ensured for user 1, one entry started at 0
and stopped at 5. -/
def dbChain : DB :=
  (stop_active_entry 1 5 (start_entry 1 1 "t" 0 (ensure_default_categories 1 dbEmpty))).2

/-- The whole view of the store owned by or visible to user `B` agrees
between two states: the rows of both tables restricted to `B`, and the
results of all four read operations run as `B`. -/
def BViewEq (B : Nat) (now days : Int) (limit : Nat) (db db' : DB) : Prop :=
  db'.categories.filter (fun c => c.user_id == B)
      = db.categories.filter (fun c => c.user_id == B) ∧
    db'.entries.filter (fun e => e.user_id == B)
      = db.entries.filter (fun e => e.user_id == B) ∧
    get_categories B db' = get_categories B db ∧
    get_active_entry B db' = get_active_entry B db ∧
    get_stats B now days db' = get_stats B now days db ∧
    get_history B limit db' = get_history B limit db

/-! ## General lemmas about the embedded queries -/

/-- The head of a sorted list is a member of the unsorted list. -/
theorem mem_of_head?_insertionSort {α : Type} (r : α → α → Prop) [DecidableRel r]
    {l : List α} {x : α} (h : (List.insertionSort r l).head? = some x) : x ∈ l :=
  (List.perm_insertionSort r l).mem_iff.mp (List.mem_of_mem_head? (by simp [h]))

/-- Characterisation of the joined active rows. -/
theorem activeRows_mem {u : Nat} {db : DB} {e : TimeEntry} {c : Category}
    (h : (e, c) ∈ activeRows u db) :
    e ∈ db.entries ∧ e.user_id = u ∧ e.stopped_at = none ∧
      db.categories.find? (fun c' => c'.id == e.category_id) = some c := by
  rcases List.mem_filterMap.mp h with ⟨a, ha, hfa⟩
  split at hfa
  case isTrue hc =>
    rcases Option.map_eq_some'.mp hfa with ⟨c', hfind, heq⟩
    injection heq with h1 h2
    subst h1; subst h2
    simp only [Bool.and_eq_true, beq_iff_eq, Option.isNone_iff_eq_none] at hc
    exact ⟨ha, hc.1, hc.2, hfind⟩
  case isFalse hc => cases hfa

/-- What a successful `get_active_entry` says about its result. -/
theorem get_active_some {u : Nat} {db : DB} {e : TimeEntry} {c : Category}
    (h : get_active_entry u db = some (e, c)) :
    e ∈ db.entries ∧ e.user_id = u ∧ e.stopped_at = none ∧
      db.categories.find? (fun c' => c'.id == e.category_id) = some c :=
  activeRows_mem (mem_of_head?_insertionSort entryDescLe h)

/-- A user with no active entry has no joined active rows. -/
theorem activeRows_eq_nil {u : Nat} {db : DB} (h : NoActiveFor u db) :
    activeRows u db = [] := by
  refine List.filterMap_eq_nil_iff.mpr (fun e he => ?_)
  by_cases hu : e.user_id = u
  · have hs : e.stopped_at.isNone = false := by
      cases hst : e.stopped_at with
      | none => exact absurd hst (h e he hu)
      | some v => rfl
    simp [hs]
  · simp [hu]

/-! ## C6 -/

/-- Claim C6: for every user with no active entry (no entry whose stop
timestamp is null), stop_active_entry returns the none sentinel and leaves
the entire stored state unchanged. -/
theorem C6_stop_without_active (u : Nat) (now : Int) (db : DB) (h : NoActiveFor u db) :
    stop_active_entry u now db = (none, db) := by
  have h1 : get_active_entry u db = none := by
    simp [get_active_entry, activeRows_eq_nil h, List.insertionSort]
  simp [stop_active_entry, h1]

/-- Witness for C6 at a concrete state holding one stopped entry. -/
theorem C6_stop_without_active_witness :
    NoActiveFor 1 dbStoppedOnly ∧ stop_active_entry 1 9 dbStoppedOnly = (none, dbStoppedOnly) :=
  ⟨by unfold NoActiveFor; decide,
   C6_stop_without_active 1 9 dbStoppedOnly (by unfold NoActiveFor; decide)⟩

/-! ## C1 -/

/-- Counterexample to C1 as stated: with an active entry started at second
10 and the clock reading 3 at stop time, the persisted duration_seconds is
-7, which is negative — the engine does not clamp to 0. -/
theorem C1_counterexample :
    (stop_active_entry 1 3 dbBackClock).2.entries.map (fun e => e.duration_seconds)
        = [some (-7)] ∧
      (stop_active_entry 1 3 dbBackClock).1 = some ⟨1, "report", 10, "work", -7⟩ ∧
      (-7 : Int) < 0 := by
  refine ⟨by decide, by decide, by decide⟩

/-- Claim C1 (amended): stop_active_entry sets the stop timestamp of the
active entry to the current time and stores duration = stop − start in
whole seconds WITHOUT clamping: the duration is nonnegative whenever the
clock reads a stop time at or after the start time, but a negative duration
is persisted when the clock reads a stop time earlier than the start
time. -/
theorem C1_stop_sets_unclamped_duration (u : Nat) (now : Int) (db : DB)
    (e : TimeEntry) (c : Category) (h : get_active_entry u db = some (e, c)) :
    e ∈ db.entries ∧ e.stopped_at = none ∧ c ∈ db.categories ∧ c.id = e.category_id ∧
      (stop_active_entry u now db).1 =
        some ⟨e.id, e.task_name, e.started_at, c.name, now - e.started_at⟩ ∧
      (stop_active_entry u now db).2.entries = db.entries.map (fun t =>
        if t.id == e.id then
          { t with stopped_at := some now, duration_seconds := some (now - e.started_at) }
        else t) ∧
      (e.started_at ≤ now → 0 ≤ now - e.started_at) := by
  obtain ⟨he, _, hstop, hfind⟩ := get_active_some h
  have hc : c ∈ db.categories := List.mem_of_find?_eq_some hfind
  have hcid : c.id = e.category_id := by
    have hp := List.find?_some hfind
    simpa using hp
  refine ⟨he, hstop, hc, hcid, ?_, ?_, fun hle => by omega⟩
  · simp [stop_active_entry, h]
  · simp [stop_active_entry, h]

/-- Witness for the amended C1 on a concrete state with the clock ahead of
the start time. -/
theorem C1_stop_sets_unclamped_duration_witness :
    get_active_entry 1 dbBackClock = some (⟨1, 1, 1, "report", 10, none, none⟩, ⟨1, 1, "work"⟩) ∧
      (stop_active_entry 1 17 dbBackClock).1 = some ⟨1, "report", 10, "work", 17 - 10⟩ := by
  have h := C1_stop_sets_unclamped_duration 1 17 dbBackClock
    ⟨1, 1, 1, "report", 10, none, none⟩ ⟨1, 1, "work"⟩ (by decide)
  exact ⟨by decide, h.2.2.2.2.1⟩

/-! ## C2 -/

/-- Counterexample to C2 as stated: with an empty task name AND a
category_id owned by nobody (the fresh database has no categories at all),
start_entry does not fail — it creates the entry. -/
theorem C2_counterexample :
    dbEmpty.categories = [] ∧
      (start_entry 1 99 "" 5 dbEmpty).entries = [⟨1, 1, 99, "", 5, none, none⟩] :=
  ⟨rfl, rfl⟩

/-- Claim C2 (amended): start_entry performs no input validation: even when
the task name is empty or the category does not belong to the user, it
creates a new entry with null stop timestamp and start timestamp equal to
the current time (validation is left entirely to the caller). -/
theorem C2_start_entry_no_validation (u cat : Nat) (task : String) (now : Int) (db : DB)
    (_h : task = "" ∨ ∀ c ∈ db.categories, ¬(c.user_id = u ∧ c.id = cat)) :
    (start_entry u cat task now db).entries.getLast?
        = some ⟨db.nextEntryId, u, cat, task, now, none, none⟩ ∧
      (start_entry u cat task now db).entries.length = db.entries.length + 1 := by
  constructor
  · simp [start_entry]
  · simp [start_entry]

/-- Witness for the amended C2 at a concrete invalid input. -/
theorem C2_start_entry_no_validation_witness :
    (("" : String) = "" ∨ ∀ c ∈ dbEmpty.categories, ¬(c.user_id = 1 ∧ c.id = 99)) ∧
      (start_entry 1 99 "" 5 dbEmpty).entries.getLast? = some ⟨1, 1, 99, "", 5, none, none⟩ ∧
      (start_entry 1 99 "" 5 dbEmpty).entries.length = 0 + 1 :=
  ⟨Or.inl rfl, C2_start_entry_no_validation 1 99 "" 5 dbEmpty (Or.inl rfl)⟩

/-! ## C3 -/

/-- Counterexample to C3 as stated: the name " Music " is stored as
" music " — lowercased but NOT trimmed — and the empty name is not
rejected: the call returns true and persists a category row whose name is
empty. -/
theorem C3_counterexample :
    (add_category 1 " Music " dbEmpty).2.categories.map (fun c => c.name) = [" music "] ∧
      (" music " : String) ≠ "music" ∧
      add_category 1 "" dbEmpty = (true, { dbEmpty with categories := [⟨1, 1, ""⟩], nextCatId := 2 }) := by
  refine ⟨by decide, by decide, by decide⟩

/-- Claim C3 (amended): add_category normalizes the name only by
lowercasing it (no whitespace trimming) and performs no emptiness check:
whenever the user has no category whose stored name equals the lowercased
input — including when that lowercased input is empty or all whitespace —
the call succeeds and stores exactly the lowercased, untrimmed name. -/
theorem C3_add_category_lowercase_only (u : Nat) (name : String) (db : DB)
    (h : ¬∃ c ∈ db.categories, c.user_id = u ∧ c.name = pyLower name) :
    (add_category u name db).1 = true ∧
      (add_category u name db).2.categories.map (fun c => c.name)
        = db.categories.map (fun c => c.name) ++ [pyLower name] := by
  have hany : db.categories.any
      (fun c => c.user_id == u && c.name == pyLower name) = false := by
    rw [← Bool.not_eq_true, List.any_eq_true]
    intro hx
    rcases hx with ⟨c, hc, hp⟩
    simp only [Bool.and_eq_true, beq_iff_eq] at hp
    exact h ⟨c, hc, hp⟩
  constructor
  · simp [add_category, hany]
  · simp [add_category, hany]

/-- Witness for the amended C3, inserting the empty name. -/
theorem C3_add_category_lowercase_only_witness :
    (¬∃ c ∈ dbEmpty.categories, c.user_id = 1 ∧ c.name = pyLower "") ∧
      (add_category 1 "" dbEmpty).1 = true ∧
      (add_category 1 "" dbEmpty).2.categories.map (fun c => c.name) = [""] := by
  have h := C3_add_category_lowercase_only 1 "" dbEmpty (by decide)
  exact ⟨by decide, h.1, by simpa using h.2⟩

/-! ## C4 -/

/-- Bridge between the Bool membership test run by the UNIQUE constraint
and its propositional form. -/
theorem any_cat_eq_true_iff (u : Nat) (n : String) (l : List Category) :
    l.any (fun c => c.user_id == u && c.name == n) = true ↔
      ∃ c ∈ l, c.user_id = u ∧ c.name = n := by
  rw [List.any_eq_true]
  constructor
  · rintro ⟨c, hc, hp⟩
    simp only [Bool.and_eq_true, beq_iff_eq] at hp
    exact ⟨c, hc, hp⟩
  · rintro ⟨c, hc, h1, h2⟩
    exact ⟨c, hc, by simp [h1, h2]⟩

/-- Claim C4: for a non-empty normalized name, add_category returns false
and leaves the state unchanged when the user already has a category of
that normalized name, and returns true persisting exactly one new category
row otherwise; a second call with the same normalized name returns false
and changes nothing. -/
theorem C4_add_category_idempotent (u : Nat) (name : String) (db : DB)
    (_hne : pyLower name ≠ "") :
    (add_category u name db =
        if ∃ c ∈ db.categories, c.user_id = u ∧ c.name = pyLower name
        then (false, db)
        else (true, { db with
          categories := db.categories ++ [⟨db.nextCatId, u, pyLower name⟩]
          nextCatId := db.nextCatId + 1 })) ∧
      add_category u name (add_category u name db).2 = (false, (add_category u name db).2) := by
  by_cases hex : ∃ c ∈ db.categories, c.user_id = u ∧ c.name = pyLower name
  · have hany : db.categories.any (fun c => c.user_id == u && c.name == pyLower name) = true :=
      (any_cat_eq_true_iff u (pyLower name) db.categories).mpr hex
    have h1 : add_category u name db = (false, db) := by
      simp [add_category, hany]
    rw [if_pos hex]
    exact ⟨h1, by rw [h1]; exact h1⟩
  · have hany : db.categories.any (fun c => c.user_id == u && c.name == pyLower name) = false := by
      rw [← Bool.not_eq_true]
      exact fun hx => hex ((any_cat_eq_true_iff u (pyLower name) db.categories).mp hx)
    have h1 : add_category u name db = (true, { db with
        categories := db.categories ++ [⟨db.nextCatId, u, pyLower name⟩]
        nextCatId := db.nextCatId + 1 }) := by
      simp [add_category, hany]
    rw [if_neg hex]
    refine ⟨h1, ?_⟩
    rw [h1]
    have hmem : (⟨db.nextCatId, u, pyLower name⟩ : Category) ∈
        db.categories ++ [(⟨db.nextCatId, u, pyLower name⟩ : Category)] :=
      List.mem_append_right _ (List.mem_singleton.mpr rfl)
    have hany2 : (db.categories ++ [(⟨db.nextCatId, u, pyLower name⟩ : Category)]).any
        (fun c => c.user_id == u && c.name == pyLower name) = true :=
      (any_cat_eq_true_iff u (pyLower name)
          (db.categories ++ [(⟨db.nextCatId, u, pyLower name⟩ : Category)])).mpr
        ⟨(⟨db.nextCatId, u, pyLower name⟩ : Category), hmem, rfl, rfl⟩
    simp [add_category, hany2]

/-- Witness for C4 at a fresh database and the name Music. -/
theorem C4_add_category_idempotent_witness :
    pyLower "Music" ≠ "" ∧
      add_category 1 "Music" dbEmpty =
        (true, { dbEmpty with categories := [⟨1, 1, "music"⟩], nextCatId := 2 }) ∧
      add_category 1 "Music" (add_category 1 "Music" dbEmpty).2 =
        (false, (add_category 1 "Music" dbEmpty).2) := by
  have h := C4_add_category_idempotent 1 "Music" dbEmpty (by decide)
  refine ⟨by decide, ?_, h.2⟩
  rw [h.1, if_neg (by decide)]
  decide

/-! ## C5 -/

/-- INSERT OR IGNORE inserts when the user has no category of that name. -/
theorem ins_fresh {u : Nat} {n : String} {db : DB}
    (h : ∀ c ∈ db.categories, ¬(c.user_id = u ∧ c.name = n)) :
    insertOrIgnoreCategory u n db = { db with
      categories := db.categories ++ [⟨db.nextCatId, u, n⟩]
      nextCatId := db.nextCatId + 1 } := by
  have hany : db.categories.any (fun c => c.user_id == u && c.name == n) = false := by
    rw [← Bool.not_eq_true]
    intro hx
    rcases (any_cat_eq_true_iff u n db.categories).mp hx with ⟨c, hc, hp⟩
    exact h c hc hp
  simp [insertOrIgnoreCategory, hany]

/-- INSERT OR IGNORE is ignored when the user already has the name. -/
theorem ins_dup {u : Nat} {n : String} {db : DB}
    (h : ∃ c ∈ db.categories, c.user_id = u ∧ c.name = n) :
    insertOrIgnoreCategory u n db = db := by
  simp [insertOrIgnoreCategory, (any_cat_eq_true_iff u n db.categories).mpr h]

/-- A fold of INSERT OR IGNORE over names the user already has is the
identity. -/
theorem foldl_ins_noop (u : Nat) :
    ∀ (names : List String) (db : DB),
      (∀ n ∈ names, ∃ c ∈ db.categories, c.user_id = u ∧ c.name = n) →
      names.foldl (fun d n => insertOrIgnoreCategory u n d) db = db := by
  intro names
  induction names with
  | nil => intro db _; rfl
  | cons n ns ih =>
    intro db h
    rw [List.foldl_cons, ins_dup (h n (List.mem_cons_self n ns))]
    exact ih db (fun m hm => h m (List.mem_cons_of_mem n hm))

/-- For a user with no categories, ensure_default_categories appends
exactly the four default rows with consecutive fresh ids. -/
theorem ensure_fresh_eq (u : Nat) (db : DB)
    (h : ∀ c ∈ db.categories, c.user_id ≠ u) :
    ensure_default_categories u db = { db with
      categories := db.categories ++
        [⟨db.nextCatId, u, "work"⟩, ⟨db.nextCatId + 1, u, "study"⟩,
         ⟨db.nextCatId + 2, u, "sport"⟩, ⟨db.nextCatId + 3, u, "other"⟩]
      nextCatId := db.nextCatId + 4 } := by
  have h1 : ∀ (n : String), ∀ c ∈ db.categories, ¬(c.user_id = u ∧ c.name = n) :=
    fun n c hc hp => h c hc hp.1
  have hA : ∀ c ∈ db.categories ++ [(⟨db.nextCatId, u, "work"⟩ : Category)],
      ¬(c.user_id = u ∧ c.name = "study") := by
    intro c hc hp
    rcases List.mem_append.mp hc with hl | hr
    · exact h1 "study" c hl hp
    · rw [List.mem_singleton] at hr
      subst hr
      have hbad : ("work" : String) = "study" := hp.2
      exact absurd hbad (by decide)
  have hB : ∀ c ∈ db.categories ++ [(⟨db.nextCatId, u, "work"⟩ : Category)] ++
      [(⟨db.nextCatId + 1, u, "study"⟩ : Category)],
      ¬(c.user_id = u ∧ c.name = "sport") := by
    intro c hc hp
    rcases List.mem_append.mp hc with hl | hr
    · rcases List.mem_append.mp hl with hll | hlr
      · exact h1 "sport" c hll hp
      · rw [List.mem_singleton] at hlr
        subst hlr
        have hbad : ("work" : String) = "sport" := hp.2
        exact absurd hbad (by decide)
    · rw [List.mem_singleton] at hr
      subst hr
      have hbad : ("study" : String) = "sport" := hp.2
      exact absurd hbad (by decide)
  have hC : ∀ c ∈ db.categories ++ [(⟨db.nextCatId, u, "work"⟩ : Category)] ++
      [(⟨db.nextCatId + 1, u, "study"⟩ : Category)] ++
      [(⟨db.nextCatId + 2, u, "sport"⟩ : Category)],
      ¬(c.user_id = u ∧ c.name = "other") := by
    intro c hc hp
    rcases List.mem_append.mp hc with hl | hr
    · rcases List.mem_append.mp hl with hll | hlr
      · rcases List.mem_append.mp hll with h3 | h4
        · exact h1 "other" c h3 hp
        · rw [List.mem_singleton] at h4
          subst h4
          have hbad : ("work" : String) = "other" := hp.2
          exact absurd hbad (by decide)
      · rw [List.mem_singleton] at hlr
        subst hlr
        have hbad : ("study" : String) = "other" := hp.2
        exact absurd hbad (by decide)
    · rw [List.mem_singleton] at hr
      subst hr
      have hbad : ("sport" : String) = "other" := hp.2
      exact absurd hbad (by decide)
  have s1 : insertOrIgnoreCategory u "work" db = { db with
      categories := db.categories ++ [(⟨db.nextCatId, u, "work"⟩ : Category)]
      nextCatId := db.nextCatId + 1 } := ins_fresh (h1 "work")
  have s2 : insertOrIgnoreCategory u "study" (insertOrIgnoreCategory u "work" db) = { db with
      categories := db.categories ++ [(⟨db.nextCatId, u, "work"⟩ : Category)] ++
        [(⟨db.nextCatId + 1, u, "study"⟩ : Category)]
      nextCatId := db.nextCatId + 2 } := by
    rw [s1]
    exact ins_fresh hA
  have s3 : insertOrIgnoreCategory u "sport" (insertOrIgnoreCategory u "study"
      (insertOrIgnoreCategory u "work" db)) = { db with
      categories := db.categories ++ [(⟨db.nextCatId, u, "work"⟩ : Category)] ++
        [(⟨db.nextCatId + 1, u, "study"⟩ : Category)] ++
        [(⟨db.nextCatId + 2, u, "sport"⟩ : Category)]
      nextCatId := db.nextCatId + 3 } := by
    rw [s2]
    exact ins_fresh hB
  have s4 : insertOrIgnoreCategory u "other" (insertOrIgnoreCategory u "sport"
      (insertOrIgnoreCategory u "study" (insertOrIgnoreCategory u "work" db))) = { db with
      categories := db.categories ++ [(⟨db.nextCatId, u, "work"⟩ : Category)] ++
        [(⟨db.nextCatId + 1, u, "study"⟩ : Category)] ++
        [(⟨db.nextCatId + 2, u, "sport"⟩ : Category)] ++
        [(⟨db.nextCatId + 3, u, "other"⟩ : Category)]
      nextCatId := db.nextCatId + 4 } := by
    rw [s3]
    exact ins_fresh hC
  show insertOrIgnoreCategory u "other" (insertOrIgnoreCategory u "sport"
    (insertOrIgnoreCategory u "study" (insertOrIgnoreCategory u "work" db))) = _
  rw [s4]
  simp [List.append_assoc]

/-- Claim C5: for every user with no categories, ensure_default_categories
followed by the category listing yields exactly work, study, sport, other,
in that order and without duplicates, and a second call to
ensure_default_categories is a no-op (same state, hence same listing). -/
theorem C5_default_categories (u : Nat) (db : DB)
    (h : ∀ c ∈ db.categories, c.user_id ≠ u) :
    (get_categories u (ensure_default_categories u db)).map Prod.snd = DEFAULT_CATEGORIES ∧
      ((get_categories u (ensure_default_categories u db)).map Prod.snd).Nodup ∧
      ensure_default_categories u (ensure_default_categories u db)
        = ensure_default_categories u db := by
  have hmain := ensure_fresh_eq u db h
  have hfilterOld : db.categories.filter (fun c => c.user_id == u) = [] := by
    rw [List.filter_eq_nil_iff]
    intro c hc
    simp [h c hc]
  have hfilterNew : ([⟨db.nextCatId, u, "work"⟩, ⟨db.nextCatId + 1, u, "study"⟩,
      ⟨db.nextCatId + 2, u, "sport"⟩, ⟨db.nextCatId + 3, u, "other"⟩] :
        List Category).filter (fun c => c.user_id == u) =
      ([⟨db.nextCatId, u, "work"⟩, ⟨db.nextCatId + 1, u, "study"⟩,
      ⟨db.nextCatId + 2, u, "sport"⟩, ⟨db.nextCatId + 3, u, "other"⟩] : List Category) := by
    simp
  have hsorted : List.Sorted catIdLe ([⟨db.nextCatId, u, "work"⟩,
      ⟨db.nextCatId + 1, u, "study"⟩, ⟨db.nextCatId + 2, u, "sport"⟩,
      ⟨db.nextCatId + 3, u, "other"⟩] : List Category) := by
    refine List.sorted_cons.mpr ⟨fun b hb => ?_, List.sorted_cons.mpr ⟨fun b hb => ?_,
      List.sorted_cons.mpr ⟨fun b hb => ?_, List.sorted_cons.mpr ⟨fun b hb => ?_,
        List.sorted_nil⟩⟩⟩⟩ <;>
      simp only [List.mem_cons, List.mem_singleton, List.not_mem_nil, or_false] at hb
    · rcases hb with rfl | rfl | rfl
      all_goals simp only [catIdLe]
      all_goals omega
    · rcases hb with rfl | rfl
      all_goals simp only [catIdLe]
      all_goals omega
    · rcases hb with rfl
      simp only [catIdLe]
      omega
  have hcats : (get_categories u (ensure_default_categories u db)).map Prod.snd
      = DEFAULT_CATEGORIES := by
    rw [hmain]
    dsimp only [get_categories]
    rw [List.filter_append, hfilterOld, List.nil_append, hfilterNew,
      hsorted.insertionSort_eq]
    rfl
  have hexists : ∀ n ∈ DEFAULT_CATEGORIES,
      ∃ c ∈ (ensure_default_categories u db).categories, c.user_id = u ∧ c.name = n := by
    rw [hmain]
    dsimp only
    intro n hn
    simp only [DEFAULT_CATEGORIES, List.mem_cons, List.mem_singleton,
      List.not_mem_nil, or_false] at hn
    rcases hn with rfl | rfl | rfl | rfl
    · exact ⟨(⟨db.nextCatId, u, "work"⟩ : Category),
        List.mem_append_right _ (by simp), rfl, rfl⟩
    · exact ⟨(⟨db.nextCatId + 1, u, "study"⟩ : Category),
        List.mem_append_right _ (by simp), rfl, rfl⟩
    · exact ⟨(⟨db.nextCatId + 2, u, "sport"⟩ : Category),
        List.mem_append_right _ (by simp), rfl, rfl⟩
    · exact ⟨(⟨db.nextCatId + 3, u, "other"⟩ : Category),
        List.mem_append_right _ (by simp), rfl, rfl⟩
  refine ⟨hcats, ?_, ?_⟩
  · rw [hcats]
    decide
  · exact foldl_ins_noop u DEFAULT_CATEGORIES (ensure_default_categories u db) hexists

/-- Witness for C5 on the fresh database. -/
theorem C5_default_categories_witness :
    (∀ c ∈ dbEmpty.categories, c.user_id ≠ 1) ∧
      (get_categories 1 (ensure_default_categories 1 dbEmpty)).map Prod.snd
        = DEFAULT_CATEGORIES ∧
      ensure_default_categories 1 (ensure_default_categories 1 dbEmpty)
        = ensure_default_categories 1 dbEmpty := by
  have h := C5_default_categories 1 dbEmpty (by decide)
  exact ⟨by decide, h.1, h.2.2⟩

/-! ## C7 -/

/-- One INSERT OR IGNORE only appends categories of the acting user and
touches nothing else. -/
theorem ins_shape (u : Nat) (n : String) (db : DB) :
    ∃ extra : List Category,
      (insertOrIgnoreCategory u n db).categories = db.categories ++ extra ∧
      (∀ c ∈ extra, c.user_id = u) ∧
      (insertOrIgnoreCategory u n db).entries = db.entries ∧
      (insertOrIgnoreCategory u n db).nextEntryId = db.nextEntryId := by
  unfold insertOrIgnoreCategory
  split
  · exact ⟨[], by simp, by simp, rfl, rfl⟩
  · refine ⟨[⟨db.nextCatId, u, n⟩], rfl, ?_, rfl, rfl⟩
    intro c hc
    rw [List.mem_singleton] at hc
    subst hc
    rfl

/-- A fold of INSERT OR IGNORE only appends categories of the acting user
and touches nothing else. -/
theorem foldl_ins_shape (u : Nat) :
    ∀ (names : List String) (db : DB),
      ∃ extra : List Category,
        (names.foldl (fun d n => insertOrIgnoreCategory u n d) db).categories
          = db.categories ++ extra ∧
        (∀ c ∈ extra, c.user_id = u) ∧
        (names.foldl (fun d n => insertOrIgnoreCategory u n d) db).entries = db.entries ∧
        (names.foldl (fun d n => insertOrIgnoreCategory u n d) db).nextEntryId
          = db.nextEntryId := by
  intro names
  induction names with
  | nil => intro db; exact ⟨[], by simp, by simp, rfl, rfl⟩
  | cons n ns ih =>
    intro db
    obtain ⟨e1, hc1, hu1, he1, hn1⟩ := ins_shape u n db
    obtain ⟨e2, hc2, hu2, he2, hn2⟩ := ih (insertOrIgnoreCategory u n db)
    refine ⟨e1 ++ e2, ?_, ?_, ?_, ?_⟩
    · rw [List.foldl_cons, hc2, hc1, List.append_assoc]
    · intro c hc
      rcases List.mem_append.mp hc with hl | hr
      · exact hu1 c hl
      · exact hu2 c hr
    · rw [List.foldl_cons, he2, he1]
    · rw [List.foldl_cons, hn2, hn1]

/-- ensure_default_categories only appends categories of the acting user. -/
theorem ensure_shape (u : Nat) (db : DB) :
    ∃ extra : List Category,
      (ensure_default_categories u db).categories = db.categories ++ extra ∧
      (∀ c ∈ extra, c.user_id = u) ∧
      (ensure_default_categories u db).entries = db.entries ∧
      (ensure_default_categories u db).nextEntryId = db.nextEntryId :=
  foldl_ins_shape u DEFAULT_CATEGORIES db

/-- add_category only appends categories of the acting user. -/
theorem add_shape (u : Nat) (name : String) (db : DB) :
    ∃ extra : List Category,
      ((add_category u name db).2).categories = db.categories ++ extra ∧
      (∀ c ∈ extra, c.user_id = u) ∧
      ((add_category u name db).2).entries = db.entries ∧
      ((add_category u name db).2).nextEntryId = db.nextEntryId := by
  by_cases hany : (db.categories.any fun c => c.user_id == u && c.name == pyLower name) = true
  · refine ⟨[], by simp [add_category, hany], by simp, by simp [add_category, hany],
      by simp [add_category, hany]⟩
  · have hf : (db.categories.any fun c => c.user_id == u && c.name == pyLower name) = false := by
      rw [← Bool.not_eq_true]
      exact hany
    refine ⟨[⟨db.nextCatId, u, pyLower name⟩], by simp [add_category, hf], ?_,
      by simp [add_category, hf], by simp [add_category, hf]⟩
    intro c hc
    rw [List.mem_singleton] at hc
    subst hc
    rfl

/-- The entry-table invariant of every reachable state: duration and stop
timestamp are null together, entry ids are below the autoincrement counter
and pairwise distinct. -/
theorem reachable_entry_inv :
    ∀ db : DB, Reachable db → EntryConsistent db ∧
      (∀ e ∈ db.entries, e.id < db.nextEntryId) ∧
      (db.entries.map (fun e => e.id)).Nodup := by
  intro db h
  induction h with
  | init =>
    refine ⟨?_, ?_, ?_⟩
    · intro e he
      cases he
    · intro e he
      cases he
    · exact List.Pairwise.nil
  | @step u db db' hr hs ih =>
    cases hs with
    | ensure =>
      obtain ⟨extra, hc, hu, hent, hnid⟩ := ensure_shape u db
      refine ⟨?_, ?_, ?_⟩
      · intro e he
        exact ih.1 e (hent ▸ he)
      · intro e he
        rw [hnid]
        exact ih.2.1 e (hent ▸ he)
      · rw [hent]
        exact ih.2.2
    | add name =>
      obtain ⟨extra, hc, hu, hent, hnid⟩ := add_shape u name db
      refine ⟨?_, ?_, ?_⟩
      · intro e he
        exact ih.1 e (hent ▸ he)
      · intro e he
        rw [hnid]
        exact ih.2.1 e (hent ▸ he)
      · rw [hent]
        exact ih.2.2
    | start cat task now =>
      refine ⟨?_, ?_, ?_⟩
      · intro e he
        rcases List.mem_append.mp he with hl | hr
        · exact ih.1 e hl
        · rw [List.mem_singleton] at hr
          subst hr
          exact Iff.rfl
      · intro e he
        show e.id < db.nextEntryId + 1
        rcases List.mem_append.mp he with hl | hr
        · have := ih.2.1 e hl
          omega
        · rw [List.mem_singleton] at hr
          subst hr
          show db.nextEntryId < db.nextEntryId + 1
          omega
      · show ((db.entries ++
            [(⟨db.nextEntryId, u, cat, task, now, none, none⟩ : TimeEntry)]).map
          (fun e => e.id)).Nodup
        rw [List.map_append, List.nodup_append]
        refine ⟨ih.2.2, by simp, ?_⟩
        intro a ha hb
        rcases List.mem_map.mp ha with ⟨e, he, rfl⟩
        have hlt := ih.2.1 e he
        simp only [List.map_cons, List.map_nil, List.mem_singleton] at hb
        omega
    | stop now =>
      cases hga : get_active_entry u db with
      | none =>
        have hdb : (stop_active_entry u now db).2 = db := by
          simp [stop_active_entry, hga]
        rw [hdb]
        exact ih
      | some r =>
        obtain ⟨e0, c0⟩ := r
        have hdb : (stop_active_entry u now db).2 = { db with
            entries := db.entries.map (fun t =>
              if t.id == e0.id then
                { t with stopped_at := some now,
                         duration_seconds := some (now - e0.started_at) }
              else t) } := by
          simp [stop_active_entry, hga]
        have hupd_id : ∀ t : TimeEntry,
            ((fun t => if t.id == e0.id then
              { t with stopped_at := some now,
                       duration_seconds := some (now - e0.started_at) }
              else t) t).id = t.id := by
          intro t
          by_cases hid : (t.id == e0.id) = true
          · simp [hid]
          · simp [hid]
        rw [hdb]
        refine ⟨?_, ?_, ?_⟩
        · intro t' ht'
          rcases List.mem_map.mp ht' with ⟨t, ht, rfl⟩
          by_cases hid : (t.id == e0.id) = true
          · simp [hid]
          · simp only [if_neg hid]
            exact ih.1 t ht
        · intro t' ht'
          rcases List.mem_map.mp ht' with ⟨t, ht, rfl⟩
          show _ < db.nextEntryId
          rw [hupd_id t]
          exact ih.2.1 t ht
        · show ((db.entries.map (fun t => if t.id == e0.id then
              { t with stopped_at := some now,
                       duration_seconds := some (now - e0.started_at) }
              else t)).map (fun e => e.id)).Nodup
          have hmm : (db.entries.map (fun t => if t.id == e0.id then
              { t with stopped_at := some now,
                       duration_seconds := some (now - e0.started_at) }
              else t)).map (fun e => e.id) = db.entries.map (fun e => e.id) := by
            rw [List.map_map]
            exact List.map_congr_left (fun t _ => hupd_id t)
          rw [hmm]
          exact ih.2.2

/-- Claim C7: in every reachable state the duration field is null exactly
when the stop timestamp is null — start_entry creates entries with both
null and stop_active_entry assigns both in one atomic state update — and
no engine step ever mutates an entry that is already stopped. -/
theorem C7_duration_null_iff_stop_null :
    (∀ db : DB, Reachable db → EntryConsistent db) ∧
      (∀ (u : Nat) (db db' : DB) (e : TimeEntry), Reachable db → Step u db db' →
        e ∈ db.entries → e.stopped_at ≠ none → e ∈ db'.entries) := by
  constructor
  · intro db h
    exact (reachable_entry_inv db h).1
  · intro u db db' e hr hs hmem hstopped
    cases hs with
    | ensure =>
      obtain ⟨extra, hc, hu, hent, hnid⟩ := ensure_shape u db
      exact hent.symm ▸ hmem
    | add name =>
      obtain ⟨extra, hc, hu, hent, hnid⟩ := add_shape u name db
      exact hent.symm ▸ hmem
    | start cat task now =>
      exact List.mem_append_left _ hmem
    | stop now =>
      cases hga : get_active_entry u db with
      | none =>
        have hdb : (stop_active_entry u now db).2 = db := by
          simp [stop_active_entry, hga]
        rw [hdb]
        exact hmem
      | some r =>
        obtain ⟨e0, c0⟩ := r
        obtain ⟨he0, _, he0stop, _⟩ := get_active_some hga
        have hn := (reachable_entry_inv db hr).2.2
        have hne : ¬(e.id = e0.id) := by
          intro heq
          have : e = e0 := List.inj_on_of_nodup_map hn hmem he0 heq
          subst this
          exact hstopped he0stop
        have hdb : (stop_active_entry u now db).2 = { db with
            entries := db.entries.map (fun t =>
              if t.id == e0.id then
                { t with stopped_at := some now,
                         duration_seconds := some (now - e0.started_at) }
              else t) } := by
          simp [stop_active_entry, hga]
        rw [hdb]
        refine List.mem_map.mpr ⟨e, hmem, ?_⟩
        rw [if_neg (fun hx => hne (by simpa using hx))]

/-- Witness for C7: a concrete reachable state with one stopped entry; the
invariant holds there and a further start step keeps the stopped entry. -/
theorem C7_duration_null_iff_stop_null_witness :
    EntryConsistent dbChain ∧
      (⟨1, 1, 1, "t", 0, some 5, some 5⟩ : TimeEntry) ∈
        (start_entry 1 2 "next" 7 dbChain).entries := by
  have hreach : Reachable dbChain :=
    Reachable.step (Reachable.step (Reachable.step Reachable.init
      (Step.ensure 1 dbEmpty))
      (Step.start 1 1 "t" 0 (ensure_default_categories 1 dbEmpty)))
      (Step.stop 1 5 (start_entry 1 1 "t" 0 (ensure_default_categories 1 dbEmpty)))
  exact ⟨C7_duration_null_iff_stop_null.1 dbChain hreach,
    C7_duration_null_iff_stop_null.2 1 dbChain (start_entry 1 2 "next" 7 dbChain)
      ⟨1, 1, 1, "t", 0, some 5, some 5⟩ hreach
      (Step.start 1 2 "next" 7 dbChain) (by decide) (by decide)⟩

/-! ## C10 -/

/-- Filtering out elements the function already sends to none does not
change a filterMap. -/
theorem filterMap_filter_of_none {α β : Type} (f : α → Option β) (p : α → Bool) :
    ∀ l : List α, (∀ a ∈ l, p a = false → f a = none) →
      (l.filter p).filterMap f = l.filterMap f := by
  intro l
  induction l with
  | nil => intro _; rfl
  | cons a l ih =>
    intro h
    have ihh := ih (fun b hb hpb => h b (List.mem_cons_of_mem a hb) hpb)
    cases hp : p a with
    | true => simp [List.filter_cons, hp, List.filterMap_cons, ihh]
    | false =>
      have hfa : f a = none := h a (List.mem_cons_self a l) hp
      simp [List.filter_cons, hp, List.filterMap_cons, hfa, ihh]

/-- An entry whose category_id matches no category row produces no joined
row: erasing orphans leaves the active rows unchanged. -/
theorem eraseOrphans_activeRows (u : Nat) (db : DB) :
    activeRows u (eraseOrphans db) = activeRows u db := by
  show (db.entries.filter (fun e => db.categories.any (fun c => c.id == e.category_id))).filterMap
      (fun e => if e.user_id == u && e.stopped_at.isNone then
        (db.categories.find? (fun c => c.id == e.category_id)).map (fun c => (e, c))
      else none)
    = db.entries.filterMap
      (fun e => if e.user_id == u && e.stopped_at.isNone then
        (db.categories.find? (fun c => c.id == e.category_id)).map (fun c => (e, c))
      else none)
  apply filterMap_filter_of_none
  intro e _ hp
  have hfind : db.categories.find? (fun c => c.id == e.category_id) = none := by
    rw [List.find?_eq_none]
    exact List.any_eq_false.mp hp
  simp [hfind]

/-- Erasing orphans leaves the completed rows unchanged. -/
theorem eraseOrphans_completedRows (u : Nat) (db : DB) :
    completedRows u (eraseOrphans db) = completedRows u db := by
  show (db.entries.filter (fun e => db.categories.any (fun c => c.id == e.category_id))).filterMap
      (fun e => if e.user_id == u && e.stopped_at.isSome then
        (db.categories.find? (fun c => c.id == e.category_id)).map (fun c => (e, c))
      else none)
    = db.entries.filterMap
      (fun e => if e.user_id == u && e.stopped_at.isSome then
        (db.categories.find? (fun c => c.id == e.category_id)).map (fun c => (e, c))
      else none)
  apply filterMap_filter_of_none
  intro e _ hp
  have hfind : db.categories.find? (fun c => c.id == e.category_id) = none := by
    rw [List.find?_eq_none]
    exact List.any_eq_false.mp hp
  simp [hfind]

/-- Erasing orphans leaves the stats rows unchanged. -/
theorem eraseOrphans_statsMatched (u : Nat) (since : Int) (db : DB) :
    statsMatched u since (eraseOrphans db) = statsMatched u since db := by
  show (db.entries.filter (fun e => db.categories.any (fun c => c.id == e.category_id))).filterMap
      (fun e => if e.user_id == u && e.stopped_at.isSome && decide (since ≤ e.started_at) then
        (db.categories.find? (fun c => c.id == e.category_id)).map
          (fun c => (c.name, e.duration_seconds))
      else none)
    = db.entries.filterMap
      (fun e => if e.user_id == u && e.stopped_at.isSome && decide (since ≤ e.started_at) then
        (db.categories.find? (fun c => c.id == e.category_id)).map
          (fun c => (c.name, e.duration_seconds))
      else none)
  apply filterMap_filter_of_none
  intro e _ hp
  have hfind : db.categories.find? (fun c => c.id == e.category_id) = none := by
    rw [List.find?_eq_none]
    exact List.any_eq_false.mp hp
  simp [hfind]

/-- Claim C10: entries whose category_id matches no category row are
invisible to get_active_entry, get_stats and get_history (erasing them
changes no query result), and when all of a user's active entries are such
orphans, stop_active_entry reports the none sentinel and mutates nothing —
even though an entry with null stop timestamp exists. -/
theorem C10_orphan_entries (u : Nat) (now days : Int) (limit : Nat) (db : DB)
    (h1 : ∀ e ∈ db.entries, e.user_id = u → e.stopped_at = none →
      ∀ c ∈ db.categories, c.id ≠ e.category_id)
    (_h2 : ∃ e ∈ db.entries, e.user_id = u ∧ e.stopped_at = none) :
    get_active_entry u (eraseOrphans db) = get_active_entry u db ∧
      get_stats u now days (eraseOrphans db) = get_stats u now days db ∧
      get_history u limit (eraseOrphans db) = get_history u limit db ∧
      get_active_entry u db = none ∧
      stop_active_entry u now db = (none, db) := by
  have hrows : activeRows u db = [] := by
    rw [activeRows, List.filterMap_eq_nil_iff]
    intro e he
    by_cases hu : e.user_id = u
    · cases hst : e.stopped_at with
      | none =>
        have hfind : db.categories.find? (fun c => c.id == e.category_id) = none := by
          rw [List.find?_eq_none]
          intro c hc
          simpa using h1 e he hu hst c hc
        simp [hfind]
      | some v => simp [hst]
    · simp [hu]
  have hga : get_active_entry u db = none := by
    simp [get_active_entry, hrows, List.insertionSort]
  refine ⟨?_, ?_, ?_, hga, ?_⟩
  · simp [get_active_entry, eraseOrphans_activeRows]
  · simp [get_stats, eraseOrphans_statsMatched]
  · simp [get_history, eraseOrphans_completedRows]
  · simp [stop_active_entry, hga]

/-- Witness for C10: a user whose only entry is active but references the
nonexistent category 5. -/
theorem C10_orphan_entries_witness :
    (∀ e ∈ dbOrphan.entries, e.user_id = 1 → e.stopped_at = none →
        ∀ c ∈ dbOrphan.categories, c.id ≠ e.category_id) ∧
      (∃ e ∈ dbOrphan.entries, e.user_id = 1 ∧ e.stopped_at = none) ∧
      get_active_entry 1 dbOrphan = none ∧
      stop_active_entry 1 8 dbOrphan = (none, dbOrphan) := by
  have h := C10_orphan_entries 1 8 7 10 dbOrphan (by decide) (by decide)
  exact ⟨by decide, by decide, h.2.2.2.1, h.2.2.2.2⟩

/-! ## C9 -/

/-- Counterexample to C9 as stated: user 2 starts an entry that references
the not-yet-existing category 1; the active entry is invisible (the JOIN
fails).  When user 1 then adds a category — which receives id 1 — user 2
suddenly sees an active entry labelled with user 1 category: a mutation by
user 1 changed a query result of user 2. -/
theorem C9_counterexample :
    (1 : Nat) ≠ 2 ∧
      get_active_entry 2 (start_entry 2 1 "x" 0 dbEmpty) = none ∧
      get_active_entry 2 (add_category 1 "work" (start_entry 2 1 "x" 0 dbEmpty)).2 =
        some (⟨1, 2, 1, "x", 0, none, none⟩, ⟨1, 1, "work"⟩) := by
  refine ⟨by decide, by decide, by decide⟩

/-- A find? that succeeds on the first list is unchanged by appending. -/
theorem find?_append_of_isSome {α : Type} (p : α → Bool) (l₁ l₂ : List α)
    (h : (l₁.find? p).isSome) : (l₁ ++ l₂).find? p = l₁.find? p := by
  rw [List.find?_append]
  cases hf : l₁.find? p with
  | none =>
    rw [hf] at h
    cases h
  | some a => simp

/-- Appending categories of another user changes nothing user B can see,
provided every entry of B resolves to an existing category. -/
theorem BViewEq_of_cats_append (A B : Nat) (hAB : A ≠ B) (db db' : DB)
    (extra : List Category) (hc : db'.categories = db.categories ++ extra)
    (hu : ∀ c ∈ extra, c.user_id = A) (hent : db'.entries = db.entries)
    (hd : NoDanglingFor B db) (now days : Int) (limit : Nat) :
    BViewEq B now days limit db db' := by
  have hfilter : db'.categories.filter (fun c => c.user_id == B)
      = db.categories.filter (fun c => c.user_id == B) := by
    rw [hc, List.filter_append]
    have hnil : extra.filter (fun c => c.user_id == B) = [] := by
      rw [List.filter_eq_nil_iff]
      intro c hcm
      rw [hu c hcm]
      simp [hAB]
    rw [hnil, List.append_nil]
  have hsome : ∀ e ∈ db.entries, e.user_id = B →
      (db.categories.find? (fun c => c.id == e.category_id)).isSome := by
    intro e he hue
    rw [List.find?_isSome]
    obtain ⟨c, hcm, hcid⟩ := hd e he hue
    exact ⟨c, hcm, by simp [hcid]⟩
  have hact : activeRows B db' = activeRows B db := by
    unfold activeRows
    rw [hent, hc]
    apply List.filterMap_congr
    intro e he
    by_cases hx : (e.user_id == B && e.stopped_at.isNone) = true
    · have hue : e.user_id = B := by
        simp only [Bool.and_eq_true, beq_iff_eq] at hx
        exact hx.1
      rw [if_pos hx, if_pos hx, find?_append_of_isSome _ _ _ (hsome e he hue)]
    · rw [if_neg hx, if_neg hx]
  have hcomp : completedRows B db' = completedRows B db := by
    unfold completedRows
    rw [hent, hc]
    apply List.filterMap_congr
    intro e he
    by_cases hx : (e.user_id == B && e.stopped_at.isSome) = true
    · have hue : e.user_id = B := by
        simp only [Bool.and_eq_true, beq_iff_eq] at hx
        exact hx.1
      rw [if_pos hx, if_pos hx, find?_append_of_isSome _ _ _ (hsome e he hue)]
    · rw [if_neg hx, if_neg hx]
  have hstats : ∀ since : Int, statsMatched B since db' = statsMatched B since db := by
    intro since
    unfold statsMatched
    rw [hent, hc]
    apply List.filterMap_congr
    intro e he
    by_cases hx : (e.user_id == B && e.stopped_at.isSome && decide (since ≤ e.started_at)) = true
    · have hue : e.user_id = B := by
        simp only [Bool.and_eq_true, beq_iff_eq] at hx
        exact hx.1.1
      rw [if_pos hx, if_pos hx, find?_append_of_isSome _ _ _ (hsome e he hue)]
    · rw [if_neg hx, if_neg hx]
  refine ⟨hfilter, by rw [hent], ?_, ?_, ?_, ?_⟩
  · unfold get_categories
    rw [hfilter]
  · unfold get_active_entry
    rw [hact]
  · unfold get_stats
    rw [hstats]
  · unfold get_history
    rw [hcomp]

/-- Appending an entry of another user changes nothing user B can see. -/
theorem BViewEq_of_entry_append (B : Nat) (db db' : DB) (eA : TimeEntry)
    (hcats : db'.categories = db.categories)
    (hent : db'.entries = db.entries ++ [eA])
    (huser : (eA.user_id == B) = false) (now days : Int) (limit : Nat) :
    BViewEq B now days limit db db' := by
  have hup : ¬ eA.user_id = B := by simpa using huser
  have hfilter : db'.entries.filter (fun e => e.user_id == B)
      = db.entries.filter (fun e => e.user_id == B) := by
    rw [hent, List.filter_append]
    simp [List.filter_cons, huser, hup]
  have hact : activeRows B db' = activeRows B db := by
    unfold activeRows
    rw [hent, hcats, List.filterMap_append]
    simp [List.filterMap_cons, huser, hup]
  have hcomp : completedRows B db' = completedRows B db := by
    unfold completedRows
    rw [hent, hcats, List.filterMap_append]
    simp [List.filterMap_cons, huser, hup]
  have hstats : ∀ since : Int, statsMatched B since db' = statsMatched B since db := by
    intro since
    unfold statsMatched
    rw [hent, hcats, List.filterMap_append]
    simp [List.filterMap_cons, huser, hup]
  refine ⟨by rw [hcats], hfilter, ?_, ?_, ?_, ?_⟩
  · unfold get_categories
    rw [hcats]
  · unfold get_active_entry
    rw [hact]
  · unfold get_stats
    rw [hstats]
  · unfold get_history
    rw [hcomp]

/-- Rewriting the entries by a function that fixes all of user B rows and
preserves user ids changes nothing user B can see. -/
theorem BViewEq_of_entries_map (B : Nat) (db db' : DB) (fn : TimeEntry → TimeEntry)
    (hcats : db'.categories = db.categories)
    (hent : db'.entries = db.entries.map fn)
    (hfn_user : ∀ t, (fn t).user_id = t.user_id)
    (hfnB : ∀ t ∈ db.entries, t.user_id = B → fn t = t)
    (now days : Int) (limit : Nat) :
    BViewEq B now days limit db db' := by
  have hfilter : db'.entries.filter (fun e => e.user_id == B)
      = db.entries.filter (fun e => e.user_id == B) := by
    rw [hent, List.filter_map]
    have h1 : db.entries.filter ((fun e => e.user_id == B) ∘ fn)
        = db.entries.filter (fun e => e.user_id == B) := by
      apply List.filter_congr
      intro t _
      show ((fn t).user_id == B) = (t.user_id == B)
      rw [hfn_user t]
    rw [h1]
    have h2 : (db.entries.filter (fun e => e.user_id == B)).map fn
        = (db.entries.filter (fun e => e.user_id == B)).map (fun t => t) := by
      apply List.map_congr_left
      intro t ht
      have hmem := (List.mem_filter.mp ht).1
      have huB : t.user_id = B := by
        have := (List.mem_filter.mp ht).2
        simpa using this
      exact hfnB t hmem huB
    rw [h2]
    simp
  have hrow : ∀ {β : Type} (g : TimeEntry → Option β),
      (∀ t ∈ db.entries, t.user_id = B → g (fn t) = g t) →
      (∀ t ∈ db.entries, t.user_id ≠ B → g (fn t) = none ∧ g t = none) →
      (db.entries.map fn).filterMap g = db.entries.filterMap g := by
    intro β g hgB hgN
    rw [List.filterMap_map]
    apply List.filterMap_congr
    intro t ht
    by_cases hu : t.user_id = B
    · show g (fn t) = g t
      exact hgB t ht hu
    · show g (fn t) = g t
      rw [(hgN t ht hu).1, (hgN t ht hu).2]
  have hact : activeRows B db' = activeRows B db := by
    unfold activeRows
    rw [hent, hcats]
    apply hrow
    · intro t ht hu
      rw [hfnB t ht hu]
    · intro t ht hu
      have h1 : ((fn t).user_id == B) = false := by
        rw [hfn_user t]
        simp [hu]
      have h2 : (t.user_id == B) = false := by simp [hu]
      constructor <;> simp [h1, h2]
  have hcomp : completedRows B db' = completedRows B db := by
    unfold completedRows
    rw [hent, hcats]
    apply hrow
    · intro t ht hu
      rw [hfnB t ht hu]
    · intro t ht hu
      have h1 : ((fn t).user_id == B) = false := by
        rw [hfn_user t]
        simp [hu]
      have h2 : (t.user_id == B) = false := by simp [hu]
      constructor <;> simp [h1, h2]
  have hstats : ∀ since : Int, statsMatched B since db' = statsMatched B since db := by
    intro since
    unfold statsMatched
    rw [hent, hcats]
    apply hrow
    · intro t ht hu
      rw [hfnB t ht hu]
    · intro t ht hu
      have h1 : ((fn t).user_id == B) = false := by
        rw [hfn_user t]
        simp [hu]
      have h2 : (t.user_id == B) = false := by simp [hu]
      constructor <;> simp [h1, h2]
  refine ⟨by rw [hcats], hfilter, ?_, ?_, ?_, ?_⟩
  · unfold get_categories
    rw [hcats]
  · unfold get_active_entry
    rw [hact]
  · unfold get_stats
    rw [hstats]
  · unfold get_history
    rw [hcomp]

/-- Claim C9 (amended): an engine mutation by user A leaves user B rows
unchanged, and — provided entry ids are distinct and every entry of B
references an existing category (both hold in reachable states, and the
latter fails exactly in the dangling-reference counterexample) — every
query by B returns the same result as before. -/
theorem C9_cross_user_isolation (A B : Nat) (db db' : DB)
    (now days : Int) (limit : Nat)
    (hs : Step A db db') (hAB : A ≠ B)
    (hn : (db.entries.map (fun e => e.id)).Nodup)
    (hd : NoDanglingFor B db) :
    BViewEq B now days limit db db' := by
  cases hs with
  | ensure =>
    obtain ⟨extra, hc, hu, hent, _⟩ := ensure_shape A db
    exact BViewEq_of_cats_append A B hAB db _ extra hc hu hent hd now days limit
  | add name =>
    obtain ⟨extra, hc, hu, hent, _⟩ := add_shape A name db
    exact BViewEq_of_cats_append A B hAB db _ extra hc hu hent hd now days limit
  | start cat task now0 =>
    refine BViewEq_of_entry_append B db (start_entry A cat task now0 db)
      ⟨db.nextEntryId, A, cat, task, now0, none, none⟩ rfl rfl ?_ now days limit
    simp [hAB]
  | stop now0 =>
    cases hga : get_active_entry A db with
    | none =>
      have hdb : (stop_active_entry A now0 db).2 = db := by
        simp [stop_active_entry, hga]
      rw [hdb]
      exact ⟨rfl, rfl, rfl, rfl, rfl, rfl⟩
    | some r =>
      obtain ⟨e0, c0⟩ := r
      obtain ⟨he0, he0user, _, _⟩ := get_active_some hga
      have hdb : (stop_active_entry A now0 db).2 = { db with
          entries := db.entries.map (fun t =>
            if t.id == e0.id then
              { t with stopped_at := some now0,
                       duration_seconds := some (now0 - e0.started_at) }
            else t) } := by
        simp [stop_active_entry, hga]
      rw [hdb]
      apply BViewEq_of_entries_map B db
        { db with entries := db.entries.map (fun t =>
            if t.id == e0.id then
              { t with stopped_at := some now0,
                       duration_seconds := some (now0 - e0.started_at) }
            else t) }
        (fun t =>
          if t.id == e0.id then
            { t with stopped_at := some now0,
                     duration_seconds := some (now0 - e0.started_at) }
          else t) rfl rfl
      · intro t
        by_cases hid : (t.id == e0.id) = true
        · simp [hid]
        · simp [hid]
      · intro t ht huB
        have hne : ¬(t.id = e0.id) := by
          intro heq
          have : t = e0 := List.inj_on_of_nodup_map hn ht he0 heq
          subst this
          rw [he0user] at huB
          exact hAB huB
        rw [if_neg (fun hx => hne (by simpa using hx))]

/-- Witness for the amended C9: user 1 adds a category; user 2, whose only
entry references an existing category, sees identical query results. -/
theorem C9_cross_user_isolation_witness :
    ((1 : Nat) ≠ 2 ∧ ((dbStoppedOnly.entries.map (fun e => e.id)).Nodup) ∧
        NoDanglingFor 2 dbStoppedOnly) ∧
      get_history 2 10 (add_category 1 "x" dbStoppedOnly).2 = get_history 2 10 dbStoppedOnly ∧
      get_active_entry 2 (add_category 1 "x" dbStoppedOnly).2 = get_active_entry 2 dbStoppedOnly := by
  have h := C9_cross_user_isolation 1 2 dbStoppedOnly (add_category 1 "x" dbStoppedOnly).2
    0 7 10 (Step.add 1 "x" dbStoppedOnly) (by decide) (by decide)
    (by unfold NoDanglingFor; decide)
  exact ⟨⟨by decide, by decide, by unfold NoDanglingFor; decide⟩, h.2.2.2.2.2, h.2.2.2.1⟩

/-! ## C8 -/

instance statDescLeTotal : IsTotal (String × Option Int) statDescLe := by
  constructor
  intro a b
  unfold statDescLe
  rcases a with ⟨na, _ | x⟩ <;> rcases b with ⟨nb, _ | y⟩ <;> simp [optIntLeB]
  exact Int.le_total y x

instance statDescLeTrans : IsTrans (String × Option Int) statDescLe := by
  constructor
  intro a b c hab hbc
  unfold statDescLe at *
  rcases a with ⟨na, _ | x⟩ <;> rcases b with ⟨nb, _ | y⟩ <;> rcases c with ⟨nc, _ | z⟩
  all_goals simp [optIntLeB] at *
  all_goals omega

/-- Characterisation of membership in the stats row set. -/
theorem statsMatched_mem {u : Nat} {since : Int} {db : DB} {r : String × Option Int} :
    r ∈ statsMatched u since db ↔
      ∃ e ∈ db.entries,
        (e.user_id == u && e.stopped_at.isSome && decide (since ≤ e.started_at)) = true ∧
        ∃ c, db.categories.find? (fun c' => c'.id == e.category_id) = some c ∧
          r = (c.name, e.duration_seconds) := by
  unfold statsMatched
  rw [List.mem_filterMap]
  constructor
  · rintro ⟨e, he, hfe⟩
    refine ⟨e, he, ?_⟩
    split at hfe
    case isTrue hc =>
      rcases Option.map_eq_some'.mp hfe with ⟨c, hfind, heq⟩
      exact ⟨hc, c, hfind, heq.symm⟩
    case isFalse hc => cases hfe
  · rintro ⟨e, he, hc, c, hfind, rfl⟩
    refine ⟨e, he, ?_⟩
    rw [if_pos hc, hfind]
    rfl

/-- On a NULL-free list the SQL filtering of NULLs is the identity. -/
theorem filterMap_id_all_some :
    ∀ l : List (Option Int), (∀ x ∈ l, x ≠ none) →
      l.filterMap id = l.map (fun x => x.getD 0) := by
  intro l
  induction l with
  | nil => intro _; rfl
  | cons x l ih =>
    intro hall
    cases hx : x with
    | none => exact absurd hx (hall x (List.mem_cons_self x l))
    | some a =>
      subst hx
      simp [List.filterMap_cons, ih (fun y hy => hall y (List.mem_cons_of_mem _ hy))]

/-- SQL SUM of a nonempty NULL-free column is the plain sum. -/
theorem sqlSumInt_all_some (l : List (Option Int)) (hne : l ≠ [])
    (hall : ∀ x ∈ l, x ≠ none) :
    sqlSumInt l = some ((l.map (fun x => x.getD 0)).sum) := by
  unfold sqlSumInt
  rw [filterMap_id_all_some l hall]
  cases l with
  | nil => exact absurd rfl hne
  | cons x xs => rfl


/-- The durations grouped under name n are exactly the durations of the
completed in-window entries whose join resolves to a category named n. -/
theorem statsMatched_name_durations (u : Nat) (since : Int) (db : DB) (n : String) :
    ((statsMatched u since db).filter (fun r => r.1 == n)).map Prod.snd
      = (db.entries.filter (fun e =>
          (e.user_id == u && e.stopped_at.isSome && decide (since ≤ e.started_at)) &&
          ((db.categories.find? (fun c => c.id == e.category_id)).map Category.name
            == some n))).map (fun e => e.duration_seconds) := by
  unfold statsMatched
  generalize db.entries = l
  induction l with
  | nil => rfl
  | cons e l ih =>
    rw [List.filterMap_cons, List.filter_cons]
    by_cases hc : (e.user_id == u && e.stopped_at.isSome && decide (since ≤ e.started_at)) = true
    · cases hfind : db.categories.find? (fun c => c.id == e.category_id) with
      | none =>
        rw [if_pos hc]
        simp only [Option.map_none']
        have hge : ¬((e.user_id == u && e.stopped_at.isSome && decide (since ≤ e.started_at) &&
            ((none : Option String) == some n)) = true) := by
          rw [hc]
          exact fun hx => Bool.false_ne_true hx
        rw [if_neg hge]
        exact ih
      | some c =>
        rw [if_pos hc]
        simp only [Option.map_some']
        by_cases hn : (c.name == n) = true
        · have hge : (e.user_id == u && e.stopped_at.isSome && decide (since ≤ e.started_at) &&
              ((some c.name : Option String) == some n)) = true := by
            rw [hc]
            simp only [Bool.true_and]
            exact hn
          rw [if_pos hge, List.filter_cons, if_pos (by exact hn : ((c.name,
            e.duration_seconds).1 == n) = true), List.map_cons, List.map_cons, ih]
        · have hnf : ¬((c.name == n) = true) := hn
          have hge : ¬((e.user_id == u && e.stopped_at.isSome && decide (since ≤ e.started_at) &&
              ((some c.name : Option String) == some n)) = true) := by
            rw [hc]
            simp only [Bool.true_and]
            exact hnf
          rw [if_neg hge, List.filter_cons, if_neg (by exact hnf : ¬(((c.name,
            e.duration_seconds).1 == n) = true))]
          exact ih
    · rw [if_neg hc]
      have hge : ¬((e.user_id == u && e.stopped_at.isSome && decide (since ≤ e.started_at) &&
          ((db.categories.find? (fun c => c.id == e.category_id)).map Category.name
            == some n)) = true) := by
        intro hx
        rw [Bool.and_eq_true] at hx
        exact hc hx.1
      rw [if_neg hge]
      exact ih

/-- Claim C8: get_stats returns one pair per category name that has at
least one completed entry started inside the trailing window, with no
duplicate names; each total is the sum of the durations of exactly the
matching completed entries joined to that name; still-active entries and
entries started outside the window are excluded, names with no matching
entries are omitted, and the rows are ordered descending by total. -/
theorem C8_get_stats (u : Nat) (now days : Int) (db : DB) (n : String) (t : Option Int)
    (hd : StoppedHasDuration db) :
    ((get_stats u now days db).map Prod.fst).Nodup ∧
      (n ∈ (get_stats u now days db).map Prod.fst ↔
        ∃ e ∈ db.entries,
          (e.user_id == u && e.stopped_at.isSome &&
            decide (now - days * 86400 ≤ e.started_at)) = true ∧
          ∃ c, db.categories.find? (fun c' => c'.id == e.category_id) = some c ∧
            c.name = n) ∧
      ((n, t) ∈ get_stats u now days db →
        t = some (((db.entries.filter (fun e =>
            (e.user_id == u && e.stopped_at.isSome &&
              decide (now - days * 86400 ≤ e.started_at)) &&
            ((db.categories.find? (fun c => c.id == e.category_id)).map Category.name
              == some n))).map (fun e => e.duration_seconds.getD 0)).sum)) ∧
      List.Sorted statDescLe (get_stats u now days db) := by
  set since := now - days * 86400 with hsince
  have hperm : List.Perm (get_stats u now days db)
      ((((statsMatched u since db).map Prod.fst).dedup).map (fun m =>
        (m, sqlSumInt (((statsMatched u since db).filter
          (fun r => r.1 == m)).map Prod.snd)))) :=
    List.perm_insertionSort statDescLe _
  have hmapfst : (((((statsMatched u since db).map Prod.fst).dedup).map (fun m =>
      (m, sqlSumInt (((statsMatched u since db).filter
        (fun r => r.1 == m)).map Prod.snd)))).map Prod.fst)
      = ((statsMatched u since db).map Prod.fst).dedup := by
    rw [List.map_map]
    exact (List.map_congr_left (fun a _ => rfl)).trans (List.map_id _)
  have hpf := hperm.map Prod.fst
  rw [hmapfst] at hpf
  have h1 : ((get_stats u now days db).map Prod.fst).Nodup :=
    hpf.nodup_iff.mpr (List.nodup_dedup _)
  have h2 : n ∈ (get_stats u now days db).map Prod.fst ↔
      ∃ e ∈ db.entries,
        (e.user_id == u && e.stopped_at.isSome && decide (since ≤ e.started_at)) = true ∧
        ∃ c, db.categories.find? (fun c' => c'.id == e.category_id) = some c ∧
          c.name = n := by
    rw [hpf.mem_iff, List.mem_dedup, List.mem_map]
    constructor
    · rintro ⟨r, hr, hr1⟩
      obtain ⟨e, he, hcond, c, hfind, rfl⟩ := statsMatched_mem.mp hr
      exact ⟨e, he, hcond, c, hfind, hr1⟩
    · rintro ⟨e, he, hcond, c, hfind, hcn⟩
      exact ⟨(c.name, e.duration_seconds),
        statsMatched_mem.mpr ⟨e, he, hcond, c, hfind, rfl⟩, hcn⟩
  have h3 : (n, t) ∈ get_stats u now days db →
      t = some (((db.entries.filter (fun e =>
          (e.user_id == u && e.stopped_at.isSome && decide (since ≤ e.started_at)) &&
          ((db.categories.find? (fun c => c.id == e.category_id)).map Category.name
            == some n))).map (fun e => e.duration_seconds.getD 0)).sum) := by
    intro hmem
    have hg := hperm.mem_iff.mp hmem
    rw [List.mem_map] at hg
    obtain ⟨m, hm, heq⟩ := hg
    injection heq with heq1 heq2
    subst heq2
    subst heq1
    rw [List.mem_dedup, List.mem_map] at hm
    obtain ⟨r, hr, hr1⟩ := hm
    have hrf : r ∈ (statsMatched u since db).filter (fun r => r.1 == m) :=
      List.mem_filter.mpr ⟨hr, by simp [hr1]⟩
    have hne : ((statsMatched u since db).filter (fun r => r.1 == m)).map Prod.snd ≠ [] := by
      intro hnil
      rw [List.map_eq_nil_iff] at hnil
      rw [hnil] at hrf
      cases hrf
    have hall : ∀ x ∈ ((statsMatched u since db).filter (fun r => r.1 == m)).map Prod.snd,
        x ≠ none := by
      intro x hx
      rw [List.mem_map] at hx
      obtain ⟨r', hr', rfl⟩ := hx
      have hr'' := (List.mem_filter.mp hr').1
      obtain ⟨e, he, hcond, c, hfind, rfl⟩ := statsMatched_mem.mp hr''
      show e.duration_seconds ≠ none
      apply hd e he
      intro hstop
      rw [Bool.and_eq_true, Bool.and_eq_true] at hcond
      have hsome := hcond.1.2
      rw [hstop] at hsome
      cases hsome
    rw [sqlSumInt_all_some _ hne hall]
    congr 1
    rw [statsMatched_name_durations u since db m, List.map_map]
    rfl
  have h4 : List.Sorted statDescLe (get_stats u now days db) :=
    List.sorted_insertionSort statDescLe _
  exact ⟨h1, h2, h3, h4⟩

/-- Witness for C8 on a concrete store with in-window, out-of-window and
still-active entries. -/
theorem C8_get_stats_witness :
    StoppedHasDuration dbStats ∧
      ((get_stats 1 100 7 dbStats).map Prod.fst).Nodup ∧
      List.Sorted statDescLe (get_stats 1 100 7 dbStats) := by
  have h := C8_get_stats 1 100 7 dbStats "study" (some 20)
    (by unfold StoppedHasDuration; decide)
  exact ⟨by unfold StoppedHasDuration; decide, h.1, h.2.2.2⟩
